import Mathlib

/-!
Verification of the localization data synchronization pipeline of
`navigatum-server` (file `server/main-api/src/setup/database/data.rs`).

The development shallowly embeds the pipeline:
* `Value` models `serde_json::Value` (JSON trees; objects are association
  lists with the unique-key discipline of `serde_json::Map`);
* `delocalise` embeds `DelocalisedValues::delocalise`;
* `DelocalisedValues.fromMap` embeds `From<HashMap<String, Value>>::from`
  (the `expect` panics on missing/ill-typed "id"/"hash" are modelled as
  `none`);
* `Store`, `DelocalisedValues.store` and `load_all_to_db` embed the
  per-language tables, the two upsert statements and the write loop;
* `download_status` embeds the status endpoint reader.
-/

/-- JSON values, mirroring `serde_json::Value`.  Objects are association
lists of key/value pairs. -/
inductive Value where
  | null : Value
  | bool : Bool → Value
  | num : Int → Value
  | str : String → Value
  | arr : List Value → Value
  | obj : List (String × Value) → Value

/-- `serde_json::Map::contains_key`. -/
def hasKey (k : String) : List (String × Value) → Bool
  | [] => false
  | (k', _) :: rest => k' == k || hasKey k rest

/-- `serde_json::Map::get`: the value at the first matching key. -/
def lookupKey (k : String) : List (String × Value) → Option Value
  | [] => none
  | (k', v) :: rest => if k' == k then some v else lookupKey k rest

/-- `serde_json::Value::as_str`: `some` exactly on strings. -/
def asStr : Value → Option String
  | .str s => some s
  | _ => none

/-- `serde_json::Value::as_i64`: `some` exactly on (integer) numbers. -/
def asI64 : Value → Option Int
  | .num n => some n
  | _ => none

/-- The condition `obj.contains_key("de") || obj.contains_key("en")` used by
`DelocalisedValues::delocalise` to detect a LocaleObject. -/
def isLocaleObject (m : List (String × Value)) : Bool :=
  hasKey "de" m || hasKey "en" m

theorem sizeOf_mem_arr {v : Value} {l : List Value} (h : v ∈ l) :
    sizeOf v < sizeOf (Value.arr l) := by
  have := List.sizeOf_lt_of_mem h
  simp only [Value.arr.sizeOf_spec]
  omega

theorem sizeOf_mem_obj {p : String × Value} {m : List (String × Value)} (h : p ∈ m) :
    sizeOf p.2 < sizeOf (Value.obj m) := by
  have h1 := List.sizeOf_lt_of_mem h
  obtain ⟨k, v⟩ := p
  simp only [Value.obj.sizeOf_spec, Prod.mk.sizeOf_spec] at *
  omega

theorem sizeOf_lookupKey {k : String} {m : List (String × Value)} {v : Value}
    (h : lookupKey k m = some v) : sizeOf v < sizeOf (Value.obj m) := by
  induction m with
  | nil => simp [lookupKey] at h
  | cons p rest ih =>
    obtain ⟨k', w⟩ := p
    simp only [lookupKey] at h
    split at h
    · cases h
      simp only [Value.obj.sizeOf_spec, List.cons.sizeOf_spec, Prod.mk.sizeOf_spec]
      omega
    · have := ih h
      simp only [Value.obj.sizeOf_spec, List.cons.sizeOf_spec, Prod.mk.sizeOf_spec] at *
      omega

/-- Embedding of `DelocalisedValues::delocalise` (data.rs lines 70–93):
arrays recurse elementwise; an object containing key "de" or "en" is
replaced by its value at the requested language (cloned verbatim, without a
recursive call) or by the empty string when the language key is absent; any
other object keeps its keys, delocalises each value and then filters out
stray "de"/"en" keys; scalars pass through. -/
def delocalise (lang : String) : Value → Value
  | .null => .null
  | .bool b => .bool b
  | .num n => .num n
  | .str s => .str s
  | .arr l => .arr (l.attach.map (fun ⟨v, _⟩ => delocalise lang v))
  | .obj m =>
    if isLocaleObject m then
      (lookupKey lang m).getD (.str "")
    else
      .obj ((m.attach.map (fun ⟨p, _⟩ => (p.1, delocalise lang p.2))).filter
        (fun p => p.1 != "de" && p.1 != "en"))
termination_by v => sizeOf v
decreasing_by
  all_goals first
    | exact sizeOf_mem_arr (by assumption)
    | exact sizeOf_mem_obj (by assumption)

theorem delocalise_arr (lang : String) (l : List Value) :
    delocalise lang (.arr l) = .arr (l.map (delocalise lang)) := by
  rw [delocalise]
  simp [List.map_attach]

theorem delocalise_obj (lang : String) (m : List (String × Value)) :
    delocalise lang (.obj m) =
      if isLocaleObject m then
        (lookupKey lang m).getD (.str "")
      else
        .obj ((m.map (fun p => (p.1, delocalise lang p.2))).filter
          (fun p => p.1 != "de" && p.1 != "en")) := by
  rw [delocalise]
  simp [List.map_attach]

/-- Nested induction principle for `Value`. -/
theorem Value.inductionOn {P : Value → Prop}
    (hnull : P .null) (hbool : ∀ b, P (.bool b)) (hnum : ∀ n, P (.num n))
    (hstr : ∀ s, P (.str s))
    (harr : ∀ l, (∀ v ∈ l, P v) → P (.arr l))
    (hobj : ∀ m, (∀ p ∈ m, P p.2) → P (.obj m)) :
    ∀ v, P v
  | .null => hnull
  | .bool b => hbool b
  | .num n => hnum n
  | .str s => hstr s
  | .arr l => harr l (fun v _ =>
      Value.inductionOn hnull hbool hnum hstr harr hobj v)
  | .obj m => hobj m (fun p _ =>
      Value.inductionOn hnull hbool hnum hstr harr hobj p.2)
termination_by v => sizeOf v
decreasing_by
  all_goals first
    | exact sizeOf_mem_arr (by assumption)
    | exact sizeOf_mem_obj (by assumption)

/-- The spec's reference recursion for the LocaleDecomposer, written from the
spec's words (§4.2 rules 1–4).  In particular rule 2 is recursive: a mapping
containing key "de" or "en" maps to `decompose(value[lang], lang)` when
`lang` is a key, else to the empty string; rule 3 keeps the remaining keys
(filtering stray "de"/"en") and decomposes each remaining value. -/
def specDecompose (lang : String) : Value → Value
  | .null => .null
  | .bool b => .bool b
  | .num n => .num n
  | .str s => .str s
  | .arr l => .arr (l.attach.map (fun ⟨v, _⟩ => specDecompose lang v))
  | .obj m =>
    if isLocaleObject m then
      match h : lookupKey lang m with
      | some v => specDecompose lang v
      | none => .str ""
    else
      .obj ((m.filter (fun p => p.1 != "de" && p.1 != "en")).attach.map
        (fun ⟨p, _⟩ => (p.1, specDecompose lang p.2)))
termination_by v => sizeOf v
decreasing_by
  all_goals first
    | exact sizeOf_mem_arr (by assumption)
    | exact sizeOf_lookupKey (by assumption)
    | exact sizeOf_mem_obj (List.mem_of_mem_filter (by assumption))

/-- The spec's recursion amended only in rule 2: a mapping containing key
"de" or "en" maps to the value at `lang` returned verbatim (not recursively
decomposed) when `lang` is a key, else to the empty string. -/
def specDecomposeAmended (lang : String) : Value → Value
  | .null => .null
  | .bool b => .bool b
  | .num n => .num n
  | .str s => .str s
  | .arr l => .arr (l.attach.map (fun ⟨v, _⟩ => specDecomposeAmended lang v))
  | .obj m =>
    if isLocaleObject m then
      match lookupKey lang m with
      | some v => v
      | none => .str ""
    else
      .obj ((m.filter (fun p => p.1 != "de" && p.1 != "en")).attach.map
        (fun ⟨p, _⟩ => (p.1, specDecomposeAmended lang p.2)))
termination_by v => sizeOf v
decreasing_by
  all_goals first
    | exact sizeOf_mem_arr (by assumption)
    | exact sizeOf_mem_obj (List.mem_of_mem_filter (by assumption))

theorem specDecomposeAmended_arr (lang : String) (l : List Value) :
    specDecomposeAmended lang (.arr l) = .arr (l.map (specDecomposeAmended lang)) := by
  rw [specDecomposeAmended]
  simp [List.map_attach]

theorem specDecomposeAmended_obj (lang : String) (m : List (String × Value)) :
    specDecomposeAmended lang (.obj m) =
      if isLocaleObject m then
        match lookupKey lang m with
        | some v => v
        | none => .str ""
      else
        .obj ((m.filter (fun p => p.1 != "de" && p.1 != "en")).map
          (fun p => (p.1, specDecomposeAmended lang p.2))) := by
  rw [specDecomposeAmended]
  simp [List.map_attach]

theorem filter_map_keyed (g : Value → Value) (q : String → Bool)
    (m : List (String × Value)) :
    (m.map (fun p => (p.1, g p.2))).filter (fun p => q p.1)
      = (m.filter (fun p => q p.1)).map (fun p => (p.1, g p.2)) := by
  induction m with
  | nil => rfl
  | cons p rest ih =>
    obtain ⟨k, w⟩ := p
    by_cases h : q k <;> simp [h, ih]

/-- A nested LocaleObject: the "de" entry of the outer LocaleObject is itself
a LocaleObject. -/
def vNested : Value := .obj [("de", .obj [("de", .str "a"), ("en", .str "b")])]

/-- C1 counterexample: on `vNested` the code returns the selected "de" value
verbatim, `{"de": "a", "en": "b"}`, while the spec's recursive reference
definition returns `"a"`; so `delocalise` does not compute the spec's
recursion. -/
theorem delocalise_ne_specDecompose :
    delocalise "de" vNested ≠ specDecompose "de" vNested ∧
    delocalise "de" vNested = .obj [("de", .str "a"), ("en", .str "b")] ∧
    specDecompose "de" vNested = .str "a" := by
  have h1 : delocalise "de" vNested = .obj [("de", .str "a"), ("en", .str "b")] := by
    simp [vNested, delocalise_obj, isLocaleObject, hasKey, lookupKey]
  have h2 : specDecompose "de" vNested = .str "a" := by
    simp [vNested, specDecompose, isLocaleObject, hasKey, lookupKey]
  refine ⟨?_, h1, h2⟩
  rw [h1, h2]
  simp

/-- C1 (amended): `delocalise` computes the spec's reference recursion with
rule 2 amended to return the selected language value verbatim (not
recursively decomposed); rules 1, 3 and 4 are as the spec states them. -/
theorem delocalise_eq_specDecomposeAmended (lang : String) (v : Value) :
    delocalise lang v = specDecomposeAmended lang v := by
  induction v using Value.inductionOn with
  | hnull => rw [delocalise, specDecomposeAmended]
  | hbool b => rw [delocalise, specDecomposeAmended]
  | hnum n => rw [delocalise, specDecomposeAmended]
  | hstr s => rw [delocalise, specDecomposeAmended]
  | harr l ih =>
    rw [delocalise_arr, specDecomposeAmended_arr]
    exact congrArg Value.arr (List.map_congr_left ih)
  | hobj m ih =>
    rw [delocalise_obj, specDecomposeAmended_obj]
    by_cases hl : isLocaleObject m
    · simp only [hl, if_pos]
      cases h : lookupKey lang m <;> simp [h]
    · simp only [hl, Bool.false_eq_true, if_neg, not_false_iff]
      rw [filter_map_keyed (delocalise lang) (fun k => k != "de" && k != "en") m]
      refine congrArg Value.obj (List.map_congr_left ?_)
      intro p hp
      rw [ih p (List.mem_of_mem_filter hp)]

theorem all_map_id (f : α → Bool) (l : List α) : (l.map f).all id = l.all f := by
  induction l with
  | nil => rfl
  | cons a t ih => simp [ih]

/-- No LocaleObject occurs anywhere in the value. -/
def localeFree : Value → Bool
  | .null => true
  | .bool _ => true
  | .num _ => true
  | .str _ => true
  | .arr l => (l.attach.map (fun ⟨v, _⟩ => localeFree v)).all id
  | .obj m => !(isLocaleObject m) && (m.attach.map (fun ⟨p, _⟩ => localeFree p.2)).all id
termination_by v => sizeOf v
decreasing_by
  all_goals first
    | exact sizeOf_mem_arr (by assumption)
    | exact sizeOf_mem_obj (by assumption)

/-- No LocaleObject is nested strictly inside a LocaleObject: every entry of
a LocaleObject is `localeFree`, while other nodes recurse. -/
def noNestedLocale : Value → Bool
  | .null => true
  | .bool _ => true
  | .num _ => true
  | .str _ => true
  | .arr l => (l.attach.map (fun ⟨v, _⟩ => noNestedLocale v)).all id
  | .obj m =>
    if isLocaleObject m then (m.attach.map (fun ⟨p, _⟩ => localeFree p.2)).all id
    else (m.attach.map (fun ⟨p, _⟩ => noNestedLocale p.2)).all id
termination_by v => sizeOf v
decreasing_by
  all_goals first
    | exact sizeOf_mem_arr (by assumption)
    | exact sizeOf_mem_obj (by assumption)

/-- Replace, at every LocaleObject at any nesting depth, the entry at key
`other` by `w`: the two-run variation of one language's values used to state
locale isolation. -/
def setLang (other : String) (w : Value) : Value → Value
  | .null => .null
  | .bool b => .bool b
  | .num n => .num n
  | .str s => .str s
  | .arr l => .arr (l.attach.map (fun ⟨v, _⟩ => setLang other w v))
  | .obj m =>
    if isLocaleObject m then
      .obj (m.attach.map (fun ⟨p, _⟩ =>
        (p.1, if p.1 == other then w else setLang other w p.2)))
    else
      .obj (m.attach.map (fun ⟨p, _⟩ => (p.1, setLang other w p.2)))
termination_by v => sizeOf v
decreasing_by
  all_goals first
    | exact sizeOf_mem_arr (by assumption)
    | exact sizeOf_mem_obj (by assumption)

theorem localeFree_arr (l : List Value) :
    localeFree (.arr l) = l.all localeFree := by
  rw [localeFree]
  simp [List.map_attach, all_map_id]

theorem localeFree_obj (m : List (String × Value)) :
    localeFree (.obj m)
      = (!(isLocaleObject m) && m.all (fun p => localeFree p.2)) := by
  rw [localeFree]
  simp [List.map_attach, all_map_id]

theorem noNestedLocale_arr (l : List Value) :
    noNestedLocale (.arr l) = l.all noNestedLocale := by
  rw [noNestedLocale]
  simp [List.map_attach, all_map_id]

theorem noNestedLocale_obj (m : List (String × Value)) :
    noNestedLocale (.obj m) =
      if isLocaleObject m then m.all (fun p => localeFree p.2)
      else m.all (fun p => noNestedLocale p.2) := by
  rw [noNestedLocale]
  by_cases h : isLocaleObject m <;>
    simp [h, List.map_attach, all_map_id]

theorem setLang_arr (other : String) (w : Value) (l : List Value) :
    setLang other w (.arr l) = .arr (l.map (setLang other w)) := by
  rw [setLang]
  simp [List.map_attach]

theorem setLang_obj (other : String) (w : Value) (m : List (String × Value)) :
    setLang other w (.obj m) =
      if isLocaleObject m then
        .obj (m.map (fun p => (p.1, if p.1 == other then w else setLang other w p.2)))
      else
        .obj (m.map (fun p => (p.1, setLang other w p.2))) := by
  rw [setLang]
  by_cases h : isLocaleObject m <;> simp [h, List.map_attach]

theorem hasKey_map (k : String) (g : String → Value → Value)
    (m : List (String × Value)) :
    hasKey k (m.map (fun p => (p.1, g p.1 p.2))) = hasKey k m := by
  induction m with
  | nil => rfl
  | cons q rest ih =>
    obtain ⟨k', w⟩ := q
    simp [hasKey, ih]

theorem isLocaleObject_map (g : String → Value → Value)
    (m : List (String × Value)) :
    isLocaleObject (m.map (fun p => (p.1, g p.1 p.2))) = isLocaleObject m := by
  simp [isLocaleObject, hasKey_map]

theorem lookupKey_map (k : String) (g : String → Value → Value)
    (m : List (String × Value)) :
    lookupKey k (m.map (fun p => (p.1, g p.1 p.2))) = (lookupKey k m).map (g k) := by
  induction m with
  | nil => rfl
  | cons q rest ih =>
    obtain ⟨k', w⟩ := q
    simp only [List.map_cons, lookupKey]
    by_cases h : k' == k
    · have hk : k' = k := eq_of_beq h
      simp [h, hk]
    · simp [h, ih]

theorem lookupKey_exists_mem {k : String} {m : List (String × Value)} {v : Value}
    (h : lookupKey k m = some v) : ∃ p ∈ m, p.2 = v := by
  induction m with
  | nil => simp [lookupKey] at h
  | cons q rest ih =>
    obtain ⟨k', w⟩ := q
    simp only [lookupKey] at h
    split at h
    · cases h
      exact ⟨(k', v), List.mem_cons_self _ _, rfl⟩
    · obtain ⟨p, hp, hv⟩ := ih h
      exact ⟨p, List.mem_cons_of_mem _ hp, hv⟩

theorem setLang_localeFree (other : String) (w : Value) (v : Value)
    (h : localeFree v = true) : setLang other w v = v := by
  induction v using Value.inductionOn with
  | hnull => rw [setLang]
  | hbool b => rw [setLang]
  | hnum n => rw [setLang]
  | hstr s => rw [setLang]
  | harr l ih =>
    rw [localeFree_arr, List.all_eq_true] at h
    rw [setLang_arr]
    refine congrArg Value.arr ?_
    have hmap : l.map (setLang other w) = l.map id := by
      refine List.map_congr_left ?_
      intro v hv
      rw [ih v hv (h v hv)]
      rfl
    simpa using hmap
  | hobj m ih =>
    rw [localeFree_obj, Bool.and_eq_true, Bool.not_eq_true', List.all_eq_true] at h
    obtain ⟨hni, hall⟩ := h
    rw [setLang_obj, hni]
    simp only [Bool.false_eq_true, if_neg, not_false_iff]
    refine congrArg Value.obj ?_
    have hmap : m.map (fun p => (p.1, setLang other w p.2)) = m.map id := by
      refine List.map_congr_left ?_
      intro p hp
      rw [ih p hp (hall p hp)]
      rfl
    simpa using hmap

/-- C2 (amended): the per-language projection is unchanged under variation of
the other language's values inside LocaleObjects, provided no LocaleObject is
nested strictly inside a LocaleObject.  (The unamended claim fails:
see the counterexample below.) -/
theorem delocalise_setLang_invariant (lang other : String) (w : Value)
    (hpair : (lang = "de" ∧ other = "en") ∨ (lang = "en" ∧ other = "de")) :
    ∀ v, noNestedLocale v = true →
      delocalise lang (setLang other w v) = delocalise lang v := by
  have hlo : (lang == other) = false := by
    rcases hpair with ⟨h1, h2⟩ | ⟨h1, h2⟩ <;> subst h1 <;> subst h2 <;> rfl
  intro v
  induction v using Value.inductionOn with
  | hnull => intro _; rw [setLang]
  | hbool b => intro _; rw [setLang]
  | hnum n => intro _; rw [setLang]
  | hstr s => intro _; rw [setLang]
  | harr l ih =>
    intro hnn
    rw [noNestedLocale_arr, List.all_eq_true] at hnn
    rw [setLang_arr, delocalise_arr, delocalise_arr, List.map_map]
    refine congrArg Value.arr (List.map_congr_left ?_)
    intro v hv
    exact ih v hv (hnn v hv)
  | hobj m ih =>
    intro hnn
    rw [noNestedLocale_obj] at hnn
    rw [setLang_obj]
    by_cases hl : isLocaleObject m
    · rw [if_pos hl] at hnn
      rw [List.all_eq_true] at hnn
      rw [if_pos hl, delocalise_obj, delocalise_obj]
      have hmap := isLocaleObject_map
        (fun k u => if k == other then w else setLang other w u) m
      simp only [] at hmap
      rw [hmap, if_pos hl, if_pos hl]
      have hlk := lookupKey_map lang
        (fun k u => if k == other then w else setLang other w u) m
      simp only [] at hlk
      rw [hlk]
      cases hfind : lookupKey lang m with
      | none => rfl
      | some u =>
        simp only [Option.map_some', hlo, Bool.false_eq_true, if_neg,
          not_false_iff, Option.getD_some]
        obtain ⟨p, hpm, hpv⟩ := lookupKey_exists_mem hfind
        have hfree : localeFree u = true := by
          rw [← hpv]
          exact hnn p hpm
        exact setLang_localeFree other w u hfree
    · have hl' : isLocaleObject m = false := by simpa using hl
      rw [hl', if_neg (by simp)] at hnn
      rw [List.all_eq_true] at hnn
      rw [if_neg (by simp [hl']), delocalise_obj, delocalise_obj]
      have hmap := isLocaleObject_map (fun _ u => setLang other w u) m
      simp only [] at hmap
      rw [hmap, hl']
      simp only [Bool.false_eq_true, if_neg, not_false_iff]
      rw [List.map_map]
      have hme : m.map ((fun p => (p.1, delocalise lang p.2)) ∘
          (fun p => (p.1, setLang other w p.2)))
          = m.map (fun p => (p.1, delocalise lang p.2)) := by
        refine List.map_congr_left ?_
        intro p hp
        simp only [Function.comp_apply]
        rw [ih p hp (hnn p hp)]
      rw [hme]

theorem setLang_str (other : String) (w : Value) (s : String) :
    setLang other w (.str s) = .str s := by
  rw [setLang]

theorem delocalise_str (lang : String) (s : String) :
    delocalise lang (.str s) = .str s := by
  rw [delocalise]

/-- A record field whose value is a LocaleObject with distinct "de"/"en"
values whose "de" value contains a further LocaleObject. -/
def vLeaky : Value :=
  .obj [("name", .obj [("de", .obj [("x",
    .obj [("de", .str "tief"), ("en", .str "deep")])]), ("en", .str "flach")])]

/-- C2 counterexample: on `vLeaky` the "de" projection changes when the "en"
values inside LocaleObjects are varied — the inner LocaleObject's "en" value
`"deep"` survives verbatim inside the "de" projection, so the "de" projection
is not isolated from "en" values at nested depths. -/
theorem delocalise_leaks_other_language :
    delocalise "de" (setLang "en" (.str "X") vLeaky) ≠ delocalise "de" vLeaky ∧
    delocalise "de" vLeaky
      = .obj [("name", .obj [("x", .obj [("de", .str "tief"), ("en", .str "deep")])])] := by
  have h1 : setLang "en" (.str "X") vLeaky
      = .obj [("name", .obj [("de", .obj [("x",
          .obj [("de", .str "tief"), ("en", .str "X")])]), ("en", .str "X")])] := by
    simp [vLeaky, setLang_obj, setLang_str, isLocaleObject, hasKey]
  have h2 : delocalise "de" vLeaky
      = .obj [("name", .obj [("x", .obj [("de", .str "tief"), ("en", .str "deep")])])] := by
    simp [vLeaky, delocalise_obj, isLocaleObject, hasKey, lookupKey]
  have h3 : delocalise "de" (setLang "en" (.str "X") vLeaky)
      = .obj [("name", .obj [("x", .obj [("de", .str "tief"), ("en", .str "X")])])] := by
    rw [h1]
    simp [delocalise_obj, isLocaleObject, hasKey, lookupKey]
  refine ⟨?_, h2⟩
  rw [h2, h3]
  simp

/-- A record field whose value is a flat LocaleObject (no nesting). -/
def vFlat : Value := .obj [("name", .obj [("de", .str "a"), ("en", .str "b")])]

theorem delocalise_setLang_invariant_witness :
    noNestedLocale vFlat = true ∧
    delocalise "de" (setLang "en" (.str "X") vFlat) = delocalise "de" vFlat := by
  have hnn : noNestedLocale vFlat = true := by
    simp [vFlat, noNestedLocale_obj, localeFree_obj, localeFree,
      isLocaleObject, hasKey]
  exact ⟨hnn,
    delocalise_setLang_invariant "de" "en" (.str "X") (Or.inl ⟨rfl, rfl⟩) vFlat hnn⟩

/-- Embedding of `DelocalisedValues` (data.rs lines 11–17). -/
structure DelocalisedValues where
  key : String
  hash : Int
  de : Value
  en : Value

/-- Embedding of `From<HashMap<String, Value>> for DelocalisedValues`
(data.rs lines 40–68): the `expect` assertions on a missing "id"/"hash", an
"id" that is not a string or a "hash" that is not an i64 abort the run; the
abort is modelled as `none`.  On success every top-level field value is
delocalised once per language; the record's top-level mapping itself is never
passed to `delocalise`. -/
def DelocalisedValues.fromMap (row : List (String × Value)) :
    Option DelocalisedValues :=
  match (lookupKey "id" row).bind asStr, (lookupKey "hash" row).bind asI64 with
  | some key, some hash =>
    some { key := key, hash := hash,
           de := .obj (row.map (fun p => (p.1, delocalise "de" p.2))),
           en := .obj (row.map (fun p => (p.1, delocalise "en" p.2))) }
  | _, _ => none

/-- The persistent per-language collections: table `de(key, data, hash)` and
table `en(key, data)`, each keyed by `key`. -/
@[ext]
structure Store where
  de : String → Option (Value × Int)
  en : String → Option Value

/-- The upsert `INSERT INTO de(key,data,hash) VALUES ($1,$2,$3) ON CONFLICT
(key) DO UPDATE SET data = EXCLUDED.data, hash = EXCLUDED.hash`: one atomic
state change that overwrites every non-key column of the conflicting row. -/
def upsertDe (v : DelocalisedValues) (t : String → Option (Value × Int)) :
    String → Option (Value × Int) :=
  fun k => if k = v.key then some (v.de, v.hash) else t k

/-- The upsert `INSERT INTO en(key,data) VALUES ($1,$2) ON CONFLICT (key) DO
UPDATE SET data = EXCLUDED.data`. -/
def upsertEn (v : DelocalisedValues) (t : String → Option Value) :
    String → Option Value :=
  fun k => if k = v.key then some v.en else t k

/-- An `sqlx::Error` raised by one of the two statements of
`DelocalisedValues::store`, identified by the record key. -/
inductive StorageError where
  | de (key : String)
  | en (key : String)

/-- Embedding of `DelocalisedValues::store` (data.rs lines 94–125): the de
upsert followed by the en upsert, each propagating its error with `?`;
whether a statement fails is driven by the oracles `failDe`/`failEn`. -/
def DelocalisedValues.store (failDe failEn : DelocalisedValues → Bool)
    (v : DelocalisedValues) (s : Store) : Except StorageError Store :=
  if failDe v then .error (.de v.key)
  else if failEn v then .error (.en v.key)
  else .ok ⟨upsertDe v s.de, upsertEn v s.en⟩

/-- Embedding of `load_all_to_db` (data.rs lines 151–160): store every record
in snapshot order inside the caller's transaction, stopping at and
propagating the first error. -/
def load_all_to_db (failDe failEn : DelocalisedValues → Bool) :
    List DelocalisedValues → Store → Except StorageError Store
  | [], s => .ok s
  | v :: rest, s =>
    match DelocalisedValues.store failDe failEn v s with
    | .error e => .error e
    | .ok s' => load_all_to_db failDe failEn rest s'

/-- Modelled from the spec: all writes of one run share a single transaction
(created by the setup caller of `load_all_to_db`, which is not under `src/`);
a failing run is rolled back with no partial commit, a successful run commits
its final state. -/
def run_transaction (failDe failEn : DelocalisedValues → Bool)
    (tasks : List DelocalisedValues) (s : Store) : Store :=
  match load_all_to_db failDe failEn tasks s with
  | .ok s' => s'
  | .error _ => s

/-- The oracle of a run in which every statement succeeds. -/
def noFailure : DelocalisedValues → Bool := fun _ => false

/-- The store contents after a successful run: the fold of the two upserts
over the snapshot in order. -/
def applyAll : List DelocalisedValues → Store → Store
  | [], s => s
  | v :: rest, s => applyAll rest ⟨upsertDe v s.de, upsertEn v s.en⟩

theorem load_all_noFailure (tasks : List DelocalisedValues) (s : Store) :
    load_all_to_db noFailure noFailure tasks s = .ok (applyAll tasks s) := by
  induction tasks generalizing s with
  | nil => rfl
  | cons v rest ih =>
    simp [load_all_to_db, DelocalisedValues.store, noFailure, applyAll, ih]

theorem run_transaction_noFailure (tasks : List DelocalisedValues) (s : Store) :
    run_transaction noFailure noFailure tasks s = applyAll tasks s := by
  rw [run_transaction, load_all_noFailure]

/-- The record whose upsert is the last one affecting key `k`. -/
def lastUpsert : List DelocalisedValues → String → Option DelocalisedValues
  | [], _ => none
  | v :: rest, k =>
    match lastUpsert rest k with
    | some w => some w
    | none => if k = v.key then some v else none

theorem applyAll_de (tasks : List DelocalisedValues) (s : Store) (k : String) :
    (applyAll tasks s).de k =
      match lastUpsert tasks k with
      | some v => some (v.de, v.hash)
      | none => s.de k := by
  induction tasks generalizing s with
  | nil => rfl
  | cons v rest ih =>
    rw [applyAll, ih]
    cases h : lastUpsert rest k with
    | some w => simp [lastUpsert, h]
    | none =>
      by_cases hk : k = v.key
      · subst hk
        simp [lastUpsert, h, upsertDe]
      · simp [lastUpsert, h, hk, upsertDe]

theorem applyAll_en (tasks : List DelocalisedValues) (s : Store) (k : String) :
    (applyAll tasks s).en k =
      match lastUpsert tasks k with
      | some v => some v.en
      | none => s.en k := by
  induction tasks generalizing s with
  | nil => rfl
  | cons v rest ih =>
    rw [applyAll, ih]
    cases h : lastUpsert rest k with
    | some w => simp [lastUpsert, h]
    | none =>
      by_cases hk : k = v.key
      · subst hk
        simp [lastUpsert, h, upsertEn]
      · simp [lastUpsert, h, hk, upsertEn]

/-- C3: running the write path twice on the unchanged snapshot leaves the
store identical to running it once, and each upsert overwrites exactly the
conflicting row's non-key columns (data and hash in `de`, data in `en`),
leaving every other key untouched in a single state change. -/
theorem load_all_idempotent_and_upsert_overwrites :
    (∀ (tasks : List DelocalisedValues) (s : Store),
      run_transaction noFailure noFailure tasks
          (run_transaction noFailure noFailure tasks s)
        = run_transaction noFailure noFailure tasks s)
    ∧ (∀ (v : DelocalisedValues) (s : Store),
        upsertDe v s.de v.key = some (v.de, v.hash)
        ∧ upsertEn v s.en v.key = some v.en
        ∧ ∀ k, k ≠ v.key → upsertDe v s.de k = s.de k ∧ upsertEn v s.en k = s.en k) := by
  constructor
  · intro tasks s
    simp only [run_transaction_noFailure]
    apply Store.ext
    · funext k
      rw [applyAll_de, applyAll_de]
      cases h : lastUpsert tasks k <;> simp [h]
    · funext k
      rw [applyAll_en, applyAll_en]
      cases h : lastUpsert tasks k <;> simp [h]
  · intro v s
    refine ⟨by simp [upsertDe], by simp [upsertEn], ?_⟩
    intro k hk
    exact ⟨by simp [upsertDe, hk], by simp [upsertEn, hk]⟩

/-- The empty store. -/
def emptyStore : Store := ⟨fun _ => none, fun _ => none⟩

/-- A record with key "a". -/
def dvA : DelocalisedValues := ⟨"a", 1, .null, .null⟩

theorem load_all_idempotent_witness :
    run_transaction noFailure noFailure [dvA]
        (run_transaction noFailure noFailure [dvA] emptyStore)
      = run_transaction noFailure noFailure [dvA] emptyStore
    ∧ upsertDe dvA emptyStore.de dvA.key = some (dvA.de, dvA.hash)
    ∧ ("b" ≠ dvA.key) ∧ upsertDe dvA emptyStore.de "b" = emptyStore.de "b" := by
  refine ⟨load_all_idempotent_and_upsert_overwrites.1 [dvA] emptyStore,
    (load_all_idempotent_and_upsert_overwrites.2 dvA emptyStore).1,
    by decide, ?_⟩
  exact (((load_all_idempotent_and_upsert_overwrites.2 dvA emptyStore).2.2) "b"
    (by decide)).1

theorem lastUpsert_isSome (tasks : List DelocalisedValues) (k : String) :
    (lastUpsert tasks k).isSome = true ↔ k ∈ tasks.map DelocalisedValues.key := by
  induction tasks with
  | nil => simp [lastUpsert]
  | cons v rest ih =>
    cases h : lastUpsert rest k with
    | some w =>
      have : k ∈ rest.map DelocalisedValues.key := by
        rw [← ih, h]
        rfl
      simp [lastUpsert, h, this]
    | none =>
      have hrest : k ∉ rest.map DelocalisedValues.key := by
        rw [← ih, h]
        simp
      by_cases hk : k = v.key
      · subst hk
        simp [lastUpsert, h]
      · simp [lastUpsert, h, hk, hrest]

/-- C4 (amended): after a fully successful run, the key set of each language
collection is the union of its key set before the run and the ids of the
fetched snapshot.  Hence the "de" and "en" key sets agree whenever they
agreed before the run, and starting from the empty store both equal the
snapshot's id set; but for a pre-populated store the key sets need not equal
the snapshot's ids (see the counterexample). -/
theorem key_sets_after_successful_run (tasks : List DelocalisedValues) (s : Store) :
    (∀ k, ((run_transaction noFailure noFailure tasks s).de k).isSome = true
        ↔ ((s.de k).isSome = true ∨ k ∈ tasks.map DelocalisedValues.key))
    ∧ (∀ k, ((run_transaction noFailure noFailure tasks s).en k).isSome = true
        ↔ ((s.en k).isSome = true ∨ k ∈ tasks.map DelocalisedValues.key)) := by
  constructor
  · intro k
    rw [run_transaction_noFailure, applyAll_de, ← lastUpsert_isSome tasks k]
    cases h : lastUpsert tasks k <;> simp [h, Or.comm]
  · intro k
    rw [run_transaction_noFailure, applyAll_en, ← lastUpsert_isSome tasks k]
    cases h : lastUpsert tasks k <;> simp [h, Or.comm]

/-- A store already holding a row keyed "old" in both collections. -/
def priorStore : Store :=
  ⟨fun k => if k = "old" then some (.null, 0) else none,
   fun k => if k = "old" then some .null else none⟩

/-- A snapshot consisting of one record keyed "new". -/
def dvNew : DelocalisedValues := ⟨"new", 1, .null, .null⟩

/-- C4 counterexample: a fully successful run over the snapshot `[dvNew]`
starting from `priorStore` leaves "old" in the "de" collection although
"old" is not an id of the fetched snapshot, so the key set of the "de"
collection does not equal the snapshot's id set. -/
theorem key_set_claim_fails_on_prior_store :
    ((run_transaction noFailure noFailure [dvNew] priorStore).de "old").isSome = true
    ∧ "old" ∉ [dvNew].map DelocalisedValues.key := by
  constructor
  · rw [run_transaction_noFailure, applyAll_de]
    simp [lastUpsert, dvNew, priorStore]
  · simp [dvNew]

theorem load_all_error_of_fail (failDe failEn : DelocalisedValues → Bool)
    (v : DelocalisedValues) (hv : failDe v = true ∨ failEn v = true) :
    ∀ pre, (∀ u ∈ pre, failDe u = false ∧ failEn u = false) →
      ∀ (post : List DelocalisedValues) (s : Store),
        load_all_to_db failDe failEn (pre ++ v :: post) s
          = .error (if failDe v then .de v.key else .en v.key) := by
  intro pre
  induction pre with
  | nil =>
    intro _ post s
    rcases hv with h | h
    · simp [load_all_to_db, DelocalisedValues.store, h]
    · by_cases hd : failDe v <;>
        simp [load_all_to_db, DelocalisedValues.store, h, hd]
  | cons u rest ih =>
    intro hpre post s
    have hu := hpre u (List.mem_cons_self _ _)
    simp only [List.cons_append, load_all_to_db, DelocalisedValues.store,
      hu.1, hu.2, Bool.false_eq_true, if_neg, not_false_iff]
    exact ih (fun w hw => hpre w (List.mem_cons_of_mem _ hw)) post
      ⟨upsertDe u s.de, upsertEn u s.en⟩

/-- C5: if the write of some record fails, `load_all_to_db` propagates that
record's error, the outcome is independent of the records after it (they are
never attempted), and the transactional run leaves the store exactly as it
was before the run. -/
theorem fail_fast_no_partial_commit (failDe failEn : DelocalisedValues → Bool)
    (pre post : List DelocalisedValues) (v : DelocalisedValues) (s : Store)
    (hpre : ∀ u ∈ pre, failDe u = false ∧ failEn u = false)
    (hv : failDe v = true ∨ failEn v = true) :
    load_all_to_db failDe failEn (pre ++ v :: post) s
        = .error (if failDe v then .de v.key else .en v.key)
    ∧ (∀ post', load_all_to_db failDe failEn (pre ++ v :: post) s
        = load_all_to_db failDe failEn (pre ++ v :: post') s)
    ∧ run_transaction failDe failEn (pre ++ v :: post) s = s := by
  have key := load_all_error_of_fail failDe failEn v hv pre hpre
  refine ⟨key post s, ?_, ?_⟩
  · intro post'
    rw [key post s, key post' s]
  · rw [run_transaction, key post s]

/-- A record on which both statements succeed. -/
def dvGood : DelocalisedValues := ⟨"good", 1, .null, .null⟩

/-- A record on which the de statement fails. -/
def dvBad : DelocalisedValues := ⟨"bad", 2, .null, .null⟩

/-- A failure oracle: the statement fails exactly for key "bad". -/
def failOnBad : DelocalisedValues → Bool := fun u => u.key == "bad"

theorem fail_fast_witness :
    load_all_to_db failOnBad noFailure ([dvGood] ++ dvBad :: [dvA]) emptyStore
        = .error (if failOnBad dvBad then .de dvBad.key else .en dvBad.key)
    ∧ run_transaction failOnBad noFailure ([dvGood] ++ dvBad :: [dvA]) emptyStore
        = emptyStore := by
  have h := fail_fast_no_partial_commit failOnBad noFailure [dvGood] [dvA] dvBad
    emptyStore
    (by
      intro u hu
      rw [List.mem_singleton] at hu
      subst hu
      exact ⟨by decide, rfl⟩)
    (Or.inl (by decide))
  exact ⟨h.1, h.2.2⟩

/-- The decode phase of `download_updates` (data.rs lines 138–148): every row
of the fetched snapshot is turned into a `DelocalisedValues` before the
function returns; a failing row aborts the whole fetch, so no record list is
produced at all. -/
def decodeAll : List (List (String × Value)) → Option (List DelocalisedValues)
  | [] => some []
  | row :: rest =>
    match DelocalisedValues.fromMap row, decodeAll rest with
    | some v, some vs => some (v :: vs)
    | _, _ => none

/-- Modelled from the spec: the SyncOrchestrator's run composes
fetch → decompose → write (the composing setup caller of `download_updates`
and `load_all_to_db` is not under `src/`): the snapshot is fully decoded
first, a decode failure aborts the run before any write, and otherwise the
write loop runs inside one transaction. -/
def run_full (rows : List (List (String × Value)))
    (failDe failEn : DelocalisedValues → Bool) (s : Store) : Store :=
  match decodeAll rows with
  | none => s
  | some tasks => run_transaction failDe failEn tasks s

theorem decodeAll_none_of_mem {rows : List (List (String × Value))}
    {row : List (String × Value)} (hrow : row ∈ rows)
    (hnone : DelocalisedValues.fromMap row = none) : decodeAll rows = none := by
  induction rows with
  | nil => cases hrow
  | cons r rest ih =>
    rcases List.mem_cons.mp hrow with heq | hmem
    · subst heq
      rw [decodeAll, hnone]
    · rw [decodeAll, ih hmem]
      cases DelocalisedValues.fromMap r <;> rfl

/-- C6: a fetched record whose mapping lacks the "id" field or the "hash"
field, or whose "id" value is not a string or "hash" value not an integer,
makes record construction fail (it is never silently defaulted), the whole
decode phase yields no record list, and the run leaves the store unchanged
— no write happens before decomposition starts. -/
theorem bad_record_aborts_run_before_write
    (rows : List (List (String × Value))) (row : List (String × Value))
    (failDe failEn : DelocalisedValues → Bool) (s : Store)
    (hrow : row ∈ rows)
    (hbad : (lookupKey "id" row).bind asStr = none
          ∨ (lookupKey "hash" row).bind asI64 = none) :
    DelocalisedValues.fromMap row = none
    ∧ decodeAll rows = none
    ∧ run_full rows failDe failEn s = s := by
  have h1 : DelocalisedValues.fromMap row = none := by
    rcases hbad with h | h
    · rw [DelocalisedValues.fromMap, h]
    · rw [DelocalisedValues.fromMap, h]
      cases (lookupKey "id" row).bind asStr <;> rfl
  have h2 : decodeAll rows = none := decodeAll_none_of_mem hrow h1
  exact ⟨h1, h2, by rw [run_full, h2]⟩

/-- A row whose mapping has a "hash" but no "id". -/
def rowNoId : List (String × Value) := [("hash", .num 2)]

/-- A well-formed row. -/
def rowOk : List (String × Value) := [("id", .str "ok"), ("hash", .num 1)]

theorem bad_record_aborts_run_witness :
    DelocalisedValues.fromMap rowNoId = none
    ∧ run_full [rowOk, rowNoId] noFailure noFailure emptyStore = emptyStore := by
  have h := bad_record_aborts_run_before_write [rowOk, rowNoId] rowNoId
    noFailure noFailure emptyStore
    (List.mem_cons_of_mem _ (List.mem_cons_self _ _))
    (Or.inl (by rfl))
  exact ⟨h.1, h.2.2⟩

/-- A parquet column as polars sees it: one dtype per column, with per-cell
nulls. -/
inductive Column where
  | strCol (cells : List (Option String))
  | intCol (cells : List (Option Int))

/-- A polars error: missing column or dtype mismatch on a chunked-array
downcast. -/
inductive DfError where
  | missingColumn
  | typeMismatch
deriving DecidableEq

/-- `DataFrame::column(name)`. -/
def dfColumn : List (String × Column) → String → Except DfError Column
  | [], _ => .error .missingColumn
  | (n, col) :: rest, name =>
    if n == name then .ok col else dfColumn rest name

/-- `Series::str()` (then `Vec::from`): succeeds iff the column's dtype is
string. -/
def colStr : Column → Except DfError (List (Option String))
  | .strCol cs => .ok cs
  | _ => .error .typeMismatch

/-- `Series::i64()` (then `Vec::from`): succeeds iff the column's dtype is
64-bit integer. -/
def colI64 : Column → Except DfError (List (Option Int))
  | .intCol cs => .ok cs
  | _ => .error .typeMismatch

/-- Embedding of `download_status` (data.rs lines 161–183).  Note the source
reads column "id" twice: `df.column("id")?.str()?` for the ids and
`df.column("id")?.i64()?` for the values bound to `hash_col`; the "hash"
column is never read. -/
def download_status (df : List (String × Column)) :
    Except DfError (List (String × Int)) :=
  match dfColumn df "id" with
  | .error e => .error e
  | .ok c1 =>
    match colStr c1 with
    | .error e => .error e
    | .ok id_col =>
      match dfColumn df "id" with
      | .error e => .error e
      | .ok c2 =>
        match colI64 c2 with
        | .error e => .error e
        | .ok hash_col =>
          .ok ((id_col.zip hash_col).filterMap
            (fun p => match p with
              | (some i, some h) => some (i, h)
              | _ => none))

/-- A status snapshot with one record: id "mw123", hash 7. -/
def statusDf : List (String × Column) :=
  [("id", .strCol [some "mw123"]), ("hash", .intCol [some 7])]

/-- C7: on the status snapshot `{id: "mw123", hash: 7}` the code fails with a
dtype mismatch — it tries to read the hash values from the string-typed "id"
column (`df.column("id")?.i64()?`) instead of the "hash" column — so
`download_status` does not return the (id, hash) pairs the claim states. -/
theorem download_status_diverges_from_claim :
    download_status statusDf = .error .typeMismatch ∧
    download_status statusDf ≠ .ok [("mw123", 7)] := by
  constructor
  · rfl
  · intro h
    simp [download_status, statusDf, dfColumn, colStr, colI64] at h

theorem delocalise_num (lang : String) (n : Int) :
    delocalise lang (.num n) = .num n := by
  rw [delocalise]

/-- C8: a mapping that is a LocaleObject (contains key "de" or key "en") but
lacks the requested language key delocalises to the empty string, and a
LocaleObject with the requested language present collapses to the value at
that key — in particular a LocaleObject present for only one language still
collapses for the present language. -/
theorem locale_object_default_substitution (m : List (String × Value))
    (lang : String) (hloc : isLocaleObject m = true) :
    (lookupKey lang m = none → delocalise lang (.obj m) = .str "")
    ∧ (∀ v, lookupKey lang m = some v → delocalise lang (.obj m) = v) := by
  constructor
  · intro h
    rw [delocalise_obj, if_pos hloc, h]
    rfl
  · intro v h
    rw [delocalise_obj, if_pos hloc, h]
    rfl

theorem locale_object_default_substitution_witness :
    delocalise "en" (.obj [("de", .str "x")]) = .str ""
    ∧ delocalise "de" (.obj [("de", .str "x")]) = .str "x" :=
  ⟨(locale_object_default_substitution [("de", .str "x")] "en" (by rfl)).1 (by rfl),
   (locale_object_default_substitution [("de", .str "x")] "de" (by rfl)).2
     (.str "x") (by rfl)⟩

/-- The top-level keys of a JSON object (empty for non-objects). -/
def topKeys : Value → List String
  | .obj m => m.map (fun p => p.1)
  | _ => []

/-- C9: the per-language projections built by record construction apply
`delocalise` independently to each top-level field's value — never to the
record's top-level mapping itself — so both projections are objects keeping
every top-level key of the raw record; in particular top-level "de"/"en"
fields are retained (with their values delocalised), not collapsed. -/
theorem from_map_top_level_not_collapsed (row : List (String × Value))
    (dv : DelocalisedValues) (h : DelocalisedValues.fromMap row = some dv) :
    dv.de = .obj (row.map (fun p => (p.1, delocalise "de" p.2)))
    ∧ dv.en = .obj (row.map (fun p => (p.1, delocalise "en" p.2)))
    ∧ topKeys dv.de = row.map (fun p => p.1)
    ∧ topKeys dv.en = row.map (fun p => p.1) := by
  rw [DelocalisedValues.fromMap] at h
  cases hid : (lookupKey "id" row).bind asStr with
  | none =>
    rw [hid] at h
    simp at h
  | some key =>
    cases hh : (lookupKey "hash" row).bind asI64 with
    | none =>
      rw [hid, hh] at h
      simp at h
    | some hashv =>
      rw [hid, hh] at h
      injection h with h2
      subst h2
      refine ⟨rfl, rfl, ?_, ?_⟩ <;>
        simp [topKeys, List.map_map, Function.comp]

/-- A raw record with a top-level "de" field. -/
def rowTop : List (String × Value) :=
  [("id", .str "r"), ("hash", .num 5), ("de", .str "x")]

/-- The record built from `rowTop` (all field values are scalars, so each is
its own delocalisation). -/
def dvTop : DelocalisedValues :=
  ⟨"r", 5,
   .obj [("id", .str "r"), ("hash", .num 5), ("de", .str "x")],
   .obj [("id", .str "r"), ("hash", .num 5), ("de", .str "x")]⟩

theorem from_map_top_level_not_collapsed_witness :
    DelocalisedValues.fromMap rowTop = some dvTop
    ∧ topKeys dvTop.de = ["id", "hash", "de"] := by
  have h : DelocalisedValues.fromMap rowTop = some dvTop := by
    simp [rowTop, dvTop, DelocalisedValues.fromMap, lookupKey, asStr, asI64,
      delocalise_str, delocalise_num]
  refine ⟨h, ?_⟩
  rw [(from_map_top_level_not_collapsed rowTop dvTop h).2.2.1]
  rfl

/-- `impl PartialEq for DelocalisedValues` (data.rs lines 27–31):
`self.hash == other.hash`. -/
def DelocalisedValues.eq (a b : DelocalisedValues) : Bool := a.hash == b.hash

/-- `impl Hash for DelocalisedValues` (data.rs lines 34–38): the hasher
receives exactly the single write `state.write_i64(self.hash)`; this is the
sequence of values fed to the hasher. -/
def DelocalisedValues.hasherWrites (a : DelocalisedValues) : List Int := [a.hash]

/-- C10: record equality is the equality of the hash fields alone, the
hasher is fed only the hash field, and records agreeing on hash compare
equal whatever their keys and per-language payloads are. -/
theorem eq_and_hash_by_content_hash_only :
    (∀ a b : DelocalisedValues, DelocalisedValues.eq a b = true ↔ a.hash = b.hash)
    ∧ (∀ a b : DelocalisedValues,
        DelocalisedValues.hasherWrites a = DelocalisedValues.hasherWrites b
          ↔ a.hash = b.hash)
    ∧ (∀ (h : Int) (k₁ k₂ : String) (d₁ d₂ e₁ e₂ : Value),
        DelocalisedValues.eq ⟨k₁, h, d₁, e₁⟩ ⟨k₂, h, d₂, e₂⟩ = true) := by
  refine ⟨?_, ?_, ?_⟩
  · intro a b
    simp [DelocalisedValues.eq]
  · intro a b
    simp [DelocalisedValues.hasherWrites]
  · intro h k₁ k₂ d₁ d₂ e₁ e₂
    simp [DelocalisedValues.eq]
